import Mathlib

/-!
# Verification of the raylet `WorkerPool` (ray/raylet/worker_pool.h)

The repository ships only the interface `src/ray/raylet/worker_pool.h`: the
class declaration with its member collections (`pool_`, `actor_pool_`,
`registered_workers_`, `started_worker_pids_`) and the doc comments of its
operations, but none of the method bodies.  The operations below are therefore
modelled from the specification (shallow embedding): the state is a record of
the four declared member collections plus two history components the
specification's observables require, every operation is a total executable
function, and the specification's preconditions become side conditions of a
step relation whose reflexive-transitive closure defines the reachable states.

Identifiers (`ActorID`, process ids, connection handles) are modelled as
natural numbers; the only operation the code performs on them is equality.
-/

namespace RayWorkerPool

/-- Actor identifiers (`ActorID` in the source); only equality is used. -/
abbrev ActorID := Nat

/-- Process identifiers (`pid_t` in the source); only equality is used. -/
abbrev Pid := Nat

/-- Connection handles (`std::shared_ptr<LocalClientConnection>` in the
source); only identity/equality is used. -/
abbrev Conn := Nat

/-- Modelled from the spec: a `Worker` (ray/raylet/worker.h is absent from the
sources) pairs a process identifier, a communication handle, and an optional
actor affinity tag (absent = general-purpose worker). -/
structure Worker where
  pid : Pid
  conn : Conn
  actor_id : Option ActorID
deriving DecidableEq, Repr

/-- Modelled from the spec: the state of a `WorkerPool`
(worker_pool.cc is absent from the sources).  The first four fields are the
member collections declared in worker_pool.h lines 102–111; `assigned_` and
`used_conns_` are history components: the workers that have ever been handed
out by `PopWorker` (spec §4.5: `Size` counts workers "assigned at least one
unit of work") and the connection handles ever registered (spec §3:
communication handles are "never reused").  `provisioning_ceiling_` is the
construction-time provisioning ceiling of spec §4.1/§6. -/
structure WorkerPool where
  /-- The pool of idle workers (generic idle queue). -/
  pool_ : List Worker
  /-- The pool of idle actor workers (actor-affinity index), as an
  association list keyed by actor identifier. -/
  actor_pool_ : List (ActorID × Worker)
  /-- All workers that have registered and are still connected. -/
  registered_workers_ : List Worker
  /-- Process ids started but not yet registered (a set: no duplicates are
  ever inserted). -/
  started_worker_pids_ : List Pid
  /-- History: workers that have been assigned at least one unit of work. -/
  assigned_ : List Worker
  /-- History: connection handles that have ever been registered. -/
  used_conns_ : List Conn
  /-- Configured ceiling on started-but-unregistered processes. -/
  provisioning_ceiling_ : Nat
deriving DecidableEq, Repr

/-- Modelled from the spec: the pool with zero workers produced by the
constructor `WorkerPool(worker_command)`, with the configured ceiling `c`. -/
def initial (c : Nat) : WorkerPool :=
  { pool_ := []
    actor_pool_ := []
    registered_workers_ := []
    started_worker_pids_ := []
    assigned_ := []
    used_conns_ := []
    provisioning_ceiling_ := c }

/-- Look up the idle worker bound to actor `a` in the actor-affinity index. -/
def lookupActor (m : List (ActorID × Worker)) (a : ActorID) : Option Worker :=
  (m.find? (fun e => decide (e.1 = a))).map Prod.snd

/-- Remove every entry keyed by actor `a` from the actor-affinity index. -/
def eraseActor (m : List (ActorID × Worker)) (a : ActorID) : List (ActorID × Worker) :=
  m.filter (fun e => decide (e.1 ≠ a))

/-- Modelled from the spec (§4.1, worker_pool.h lines 91–94): `AddStartedWorker`
inserts a started worker pid into `started_worker_pids_`; the member is a
`std::unordered_set`, so inserting a pid already present changes nothing. -/
def AddStartedWorker (s : WorkerPool) (pid : Pid) : WorkerPool :=
  if pid ∈ s.started_worker_pids_ then s
  else { s with started_worker_pids_ := pid :: s.started_worker_pids_ }

/-- `NumStartedWorkers` (worker_pool.h lines 96–99): the number of worker pids
stored for started workers. -/
def NumStartedWorkers (s : WorkerPool) : Nat :=
  s.started_worker_pids_.length

/-- Modelled from the spec (§4.1, worker_pool.h lines 42–49): `StartWorker`
is a no-op when `force_start` is false and the number of
started-but-unregistered processes meets or exceeds the provisioning ceiling;
otherwise the launcher spawns a process whose pid (`pid`, chosen by the OS)
is recorded in the Pending-Start Tracker. -/
def StartWorker (s : WorkerPool) (force_start : Bool) (pid : Pid) : WorkerPool :=
  if force_start = false ∧ s.provisioning_ceiling_ ≤ NumStartedWorkers s then s
  else AddStartedWorker s pid

/-- Modelled from the spec (§4.2, worker_pool.h lines 51–55): `RegisterWorker`
removes the worker's pid from the Pending-Start Tracker if present and inserts
the worker into the Worker Registry keyed by its connection handle. -/
def RegisterWorker (s : WorkerPool) (w : Worker) : WorkerPool :=
  { s with
    started_worker_pids_ := s.started_worker_pids_.filter (fun p => decide (p ≠ w.pid))
    registered_workers_ := s.registered_workers_ ++ [w]
    used_conns_ := w.conn :: s.used_conns_ }

/-- `GetRegisteredWorker` (worker_pool.h lines 57–63): pure lookup of the
registered worker owning the given client connection; `none` when the client
has not registered a worker yet. -/
def GetRegisteredWorker (s : WorkerPool) (conn : Conn) : Option Worker :=
  s.registered_workers_.find? (fun w => decide (w.conn = conn))

/-- Modelled from the spec (§4.3, worker_pool.h lines 71–74): `PushWorker`
inserts an idle worker into the actor-affinity index when its affinity tag is
set, and otherwise at the head of the generic idle queue. -/
def PushWorker (s : WorkerPool) (w : Worker) : WorkerPool :=
  match w.actor_id with
  | some a => { s with actor_pool_ := (a, w) :: eraseActor s.actor_pool_ a }
  | none => { s with pool_ := w :: s.pool_ }

/-- Modelled from the spec (§4.3, worker_pool.h lines 76–82): `PopWorker`
with an actor identifier removes and returns exactly the actor-affinity entry
for that identifier; with no actor identifier it removes and returns the head
of the generic idle queue; `none` when no such idle worker exists.  A popped
worker is recorded in the `assigned_` history. -/
def PopWorker (s : WorkerPool) (actor_id : Option ActorID) :
    Option Worker × WorkerPool :=
  match actor_id with
  | none =>
    match s.pool_ with
    | [] => (none, s)
    | w :: rest =>
      (some w, { s with pool_ := rest, assigned_ := w :: s.assigned_ })
  | some a =>
    match lookupActor s.actor_pool_ a with
    | none => (none, s)
    | some w =>
      (some w, { s with
                  actor_pool_ := eraseActor s.actor_pool_ a
                  assigned_ := w :: s.assigned_ })

/-- Modelled from the spec (§4.4, worker_pool.h lines 65–69):
`DisconnectWorker` removes the worker from the Worker Registry and from
whichever Idle Pool sub-collection holds it, returning whether it was found
in the pool of idle workers. -/
def DisconnectWorker (s : WorkerPool) (w : Worker) : Bool × WorkerPool :=
  (decide (w ∈ s.pool_ ∨ ∃ e ∈ s.actor_pool_, e.2 = w),
   { s with
      registered_workers_ := s.registered_workers_.filter (fun x => decide (x ≠ w))
      pool_ := s.pool_.filter (fun x => decide (x ≠ w))
      actor_pool_ := s.actor_pool_.filter (fun e => decide (e.2 ≠ w)) })

/-- Modelled from the spec (§4.5, worker_pool.h lines 84–88): `Size` counts
the workers in the Registry that have both registered and been assigned at
least one unit of work. -/
def Size (s : WorkerPool) : Nat :=
  (s.registered_workers_.filter (fun w => decide (w ∈ s.assigned_))).length

/-- The idle workers of both Idle Pool sub-collections. -/
def idleWorkers (s : WorkerPool) : List Worker :=
  s.pool_ ++ s.actor_pool_.map Prod.snd

/-- Modelled from the spec: one pool-mutating operation, guarded by the
specification's preconditions (§4.2: connection handles are never reused;
§4.3: only a registered, not-currently-idle worker is pushed; §4.4: the
disconnected worker must be registered). -/
inductive Step : WorkerPool → WorkerPool → Prop where
  | start (s : WorkerPool) (force : Bool) (pid : Pid) :
      Step s (StartWorker s force pid)
  | addStarted (s : WorkerPool) (pid : Pid) :
      Step s (AddStartedWorker s pid)
  | register (s : WorkerPool) (w : Worker) (hc : w.conn ∉ s.used_conns_) :
      Step s (RegisterWorker s w)
  | push (s : WorkerPool) (w : Worker) (hreg : w ∈ s.registered_workers_)
      (hp : w ∉ s.pool_) (ha : ∀ e ∈ s.actor_pool_, e.2 ≠ w) :
      Step s (PushWorker s w)
  | pop (s : WorkerPool) (aid : Option ActorID) :
      Step s (PopWorker s aid).2
  | disconnect (s : WorkerPool) (w : Worker) (hreg : w ∈ s.registered_workers_) :
      Step s (DisconnectWorker s w).2

/-- The pool states reachable from a freshly constructed pool. -/
inductive Reachable : WorkerPool → Prop where
  | init (c : Nat) : Reachable (initial c)
  | step (s t : WorkerPool) (hs : Reachable s) (h : Step s t) : Reachable t

/-- Reachability of one pool state from another by pool operations. -/
inductive ReachFrom : WorkerPool → WorkerPool → Prop where
  | refl (s : WorkerPool) : ReachFrom s s
  | tail (s t u : WorkerPool) (h : ReachFrom s t) (hstep : Step t u) : ReachFrom s u

/-- The inductive invariant of reachable pool states: actor-affinity entries
are keyed by their worker's own affinity tag and keys are unique, the generic
idle queue holds only untagged workers, both idle sub-collections are
contained in the Registry, connection handles of registered workers are
unique and recorded as used, the Pending-Start Tracker has no duplicates, and
every assigned worker has a used connection handle. -/
structure Inv (s : WorkerPool) : Prop where
  actor_key : ∀ e ∈ s.actor_pool_, e.2.actor_id = some e.1
  actor_keys_nodup : (s.actor_pool_.map Prod.fst).Nodup
  pool_generic : ∀ w ∈ s.pool_, w.actor_id = none
  pool_sub : ∀ w ∈ s.pool_, w ∈ s.registered_workers_
  actor_sub : ∀ e ∈ s.actor_pool_, e.2 ∈ s.registered_workers_
  conn_nodup : (s.registered_workers_.map Worker.conn).Nodup
  conn_used : ∀ w ∈ s.registered_workers_, w.conn ∈ s.used_conns_
  started_nodup : s.started_worker_pids_.Nodup
  assigned_used : ∀ w ∈ s.assigned_, w.conn ∈ s.used_conns_

theorem lookupActor_eq_some {m : List (ActorID × Worker)} {a : ActorID} {w : Worker}
    (h : lookupActor m a = some w) : (a, w) ∈ m := by
  unfold lookupActor at h
  cases hf : m.find? (fun e => decide (e.1 = a)) with
  | none => rw [hf] at h; simp at h
  | some e =>
    rw [hf] at h
    simp at h
    have hmem := List.mem_of_find?_eq_some hf
    have hpred := List.find?_some hf
    simp at hpred
    cases e with
    | mk a1 w1 =>
      simp at hpred h
      rw [hpred, h] at hmem
      exact hmem

theorem mem_eraseActor {m : List (ActorID × Worker)} {a : ActorID}
    {e : ActorID × Worker} (h : e ∈ eraseActor m a) : e ∈ m ∧ e.1 ≠ a := by
  unfold eraseActor at h
  simpa using h

theorem eraseActor_sublist (m : List (ActorID × Worker)) (a : ActorID) :
    (eraseActor m a).Sublist m :=
  List.filter_sublist m

theorem inv_initial (c : Nat) : Inv (initial c) := by
  constructor <;> simp [initial]

theorem inv_addStarted {s : WorkerPool} (hs : Inv s) (pid : Pid) :
    Inv (AddStartedWorker s pid) := by
  unfold AddStartedWorker
  by_cases h : pid ∈ s.started_worker_pids_
  · simpa [h] using hs
  · simp only [h, if_false]
    constructor
    · exact hs.actor_key
    · exact hs.actor_keys_nodup
    · exact hs.pool_generic
    · exact hs.pool_sub
    · exact hs.actor_sub
    · exact hs.conn_nodup
    · exact hs.conn_used
    · exact List.Nodup.cons h hs.started_nodup
    · exact hs.assigned_used

theorem inv_start {s : WorkerPool} (hs : Inv s) (force : Bool) (pid : Pid) :
    Inv (StartWorker s force pid) := by
  unfold StartWorker
  by_cases h : force = false ∧ s.provisioning_ceiling_ ≤ NumStartedWorkers s
  · simpa [h] using hs
  · simpa [h] using inv_addStarted hs pid

theorem inv_register {s : WorkerPool} (hs : Inv s) {w : Worker}
    (hc : w.conn ∉ s.used_conns_) : Inv (RegisterWorker s w) := by
  unfold RegisterWorker
  constructor
  · exact hs.actor_key
  · exact hs.actor_keys_nodup
  · exact hs.pool_generic
  · intro x hx
    exact List.mem_append_left _ (hs.pool_sub x hx)
  · intro e he
    exact List.mem_append_left _ (hs.actor_sub e he)
  · simp only [List.map_append, List.map_cons, List.map_nil]
    rw [List.nodup_append]
    refine ⟨hs.conn_nodup, List.nodup_singleton _, ?_⟩
    intro c hc1 hc2
    simp at hc2
    rcases List.mem_map.mp hc1 with ⟨x, hx, hxc⟩
    refine hc ?_
    rw [← hc2, ← hxc]
    exact hs.conn_used x hx
  · intro x hx
    rcases List.mem_append.mp hx with hx1 | hx2
    · exact List.mem_cons_of_mem _ (hs.conn_used x hx1)
    · simp at hx2
      rw [hx2]
      exact List.mem_cons_self _ _
  · exact List.Nodup.filter _ hs.started_nodup
  · intro x hx
    exact List.mem_cons_of_mem _ (hs.assigned_used x hx)

theorem inv_push {s : WorkerPool} (hs : Inv s) {w : Worker}
    (hreg : w ∈ s.registered_workers_) : Inv (PushWorker s w) := by
  unfold PushWorker
  cases hw : w.actor_id with
  | none =>
    constructor
    · exact hs.actor_key
    · exact hs.actor_keys_nodup
    · intro x hx
      rcases List.mem_cons.mp hx with h1 | h2
      · rw [h1]; exact hw
      · exact hs.pool_generic x h2
    · intro x hx
      rcases List.mem_cons.mp hx with h1 | h2
      · rw [h1]; exact hreg
      · exact hs.pool_sub x h2
    · exact hs.actor_sub
    · exact hs.conn_nodup
    · exact hs.conn_used
    · exact hs.started_nodup
    · exact hs.assigned_used
  | some a =>
    constructor
    · intro e he
      rcases List.mem_cons.mp he with h1 | h2
      · rw [h1]; exact hw
      · exact hs.actor_key e (mem_eraseActor h2).1
    · simp only [List.map_cons]
      refine List.Nodup.cons ?_ ?_
      · intro hmem
        rcases List.mem_map.mp hmem with ⟨e, he, hea⟩
        exact (mem_eraseActor he).2 hea
      · exact List.Nodup.sublist (List.Sublist.map _ (eraseActor_sublist _ _))
          hs.actor_keys_nodup
    · exact hs.pool_generic
    · exact hs.pool_sub
    · intro e he
      rcases List.mem_cons.mp he with h1 | h2
      · rw [h1]; exact hreg
      · exact hs.actor_sub e (mem_eraseActor h2).1
    · exact hs.conn_nodup
    · exact hs.conn_used
    · exact hs.started_nodup
    · exact hs.assigned_used

theorem inv_pop {s : WorkerPool} (hs : Inv s) (aid : Option ActorID) :
    Inv (PopWorker s aid).2 := by
  unfold PopWorker
  cases aid with
  | none =>
    cases hp : s.pool_ with
    | nil => simpa using hs
    | cons w rest =>
      simp only
      constructor
      · exact hs.actor_key
      · exact hs.actor_keys_nodup
      · intro x hx
        exact hs.pool_generic x (hp ▸ List.mem_cons_of_mem w hx)
      · intro x hx
        exact hs.pool_sub x (hp ▸ List.mem_cons_of_mem w hx)
      · exact hs.actor_sub
      · exact hs.conn_nodup
      · exact hs.conn_used
      · exact hs.started_nodup
      · intro x hx
        rcases List.mem_cons.mp hx with h1 | h2
        · rw [h1]
          exact hs.conn_used w (hs.pool_sub w (hp ▸ List.mem_cons_self w rest))
        · exact hs.assigned_used x h2
  | some a =>
    cases hl : lookupActor s.actor_pool_ a with
    | none => simpa [hl] using hs
    | some w =>
      simp only [hl]
      constructor
      · intro e he
        exact hs.actor_key e (mem_eraseActor he).1
      · exact List.Nodup.sublist (List.Sublist.map _ (eraseActor_sublist _ _))
          hs.actor_keys_nodup
      · exact hs.pool_generic
      · exact hs.pool_sub
      · intro e he
        exact hs.actor_sub e (mem_eraseActor he).1
      · exact hs.conn_nodup
      · exact hs.conn_used
      · exact hs.started_nodup
      · intro x hx
        rcases List.mem_cons.mp hx with h1 | h2
        · rw [h1]
          exact hs.conn_used w (hs.actor_sub (a, w) (lookupActor_eq_some hl))
        · exact hs.assigned_used x h2

theorem inv_disconnect {s : WorkerPool} (hs : Inv s) (w : Worker) :
    Inv (DisconnectWorker s w).2 := by
  unfold DisconnectWorker
  simp only
  constructor
  · intro e he
    simp at he
    exact hs.actor_key e he.1
  · exact List.Nodup.sublist (List.Sublist.map _ (List.filter_sublist _))
      hs.actor_keys_nodup
  · intro x hx
    simp at hx
    exact hs.pool_generic x hx.1
  · intro x hx
    simp at hx
    simp only [List.mem_filter]
    exact ⟨hs.pool_sub x hx.1, by simpa using hx.2⟩
  · intro e he
    simp at he
    simp only [List.mem_filter]
    exact ⟨hs.actor_sub e he.1, by simpa using he.2⟩
  · exact List.Nodup.sublist (List.Sublist.map _ (List.filter_sublist _))
      hs.conn_nodup
  · intro x hx
    simp at hx
    exact hs.conn_used x hx.1
  · exact hs.started_nodup
  · exact hs.assigned_used

theorem inv_step {s t : WorkerPool} (hs : Inv s) (h : Step s t) : Inv t := by
  cases h with
  | start force pid => exact inv_start hs force pid
  | addStarted pid => exact inv_addStarted hs pid
  | register w hc => exact inv_register hs hc
  | push w hreg hp ha => exact inv_push hs hreg
  | pop aid => exact inv_pop hs aid
  | disconnect w hreg => exact inv_disconnect hs w

theorem reachable_inv {s : WorkerPool} (hs : Reachable s) : Inv s := by
  induction hs with
  | init c => exact inv_initial c
  | step s t hs h ih => exact inv_step ih h

theorem find?_append_none {α : Type} {p : α → Bool} {l1 : List α} (l2 : List α)
    (h : l1.find? p = none) : (l1 ++ l2).find? p = l2.find? p := by
  induction l1 with
  | nil => simp
  | cons a l ih =>
    by_cases hpa : p a = true
    · rw [List.find?_cons_of_pos l hpa] at h
      cases h
    · rw [List.find?_cons_of_neg l hpa] at h
      rw [List.cons_append, List.find?_cons_of_neg _ hpa]
      exact ih h

theorem lookupActor_cons_self (m : List (ActorID × Worker)) (a : ActorID) (w : Worker) :
    lookupActor ((a, w) :: m) a = some w := by
  unfold lookupActor
  rw [List.find?_cons_of_pos m (by simp)]
  rfl

theorem PopWorker_none_nil {s : WorkerPool} (h : s.pool_ = []) :
    PopWorker s none = (none, s) := by
  simp only [PopWorker, h]

theorem PopWorker_none_cons {s : WorkerPool} {w : Worker} {rest : List Worker}
    (h : s.pool_ = w :: rest) :
    PopWorker s none =
      (some w, { s with pool_ := rest, assigned_ := w :: s.assigned_ }) := by
  simp only [PopWorker, h]

theorem PopWorker_some_none {s : WorkerPool} {a : ActorID}
    (h : lookupActor s.actor_pool_ a = none) : PopWorker s (some a) = (none, s) := by
  simp only [PopWorker, h]

theorem PopWorker_some_some {s : WorkerPool} {a : ActorID} {w : Worker}
    (h : lookupActor s.actor_pool_ a = some w) :
    PopWorker s (some a) =
      (some w, { s with actor_pool_ := eraseActor s.actor_pool_ a
                        assigned_ := w :: s.assigned_ }) := by
  simp only [PopWorker, h]

/-- The number of idle workers carrying a given affinity tag in an
actor-affinity index with well-formed keys is at most one. -/
theorem actor_filter_le_one (a : ActorID) (m : List (ActorID × Worker))
    (hkey : ∀ e ∈ m, e.2.actor_id = some e.1) (hnd : (m.map Prod.fst).Nodup) :
    ((m.map Prod.snd).filter (fun w => decide (w.actor_id = some a))).length ≤ 1 := by
  induction m with
  | nil => simp
  | cons e m ih =>
    simp only [List.map_cons, List.filter_cons]
    have hnd2 := List.nodup_cons.mp hnd
    by_cases he : e.2.actor_id = some a
    · have hea : e.1 = a := by
        have := hkey e (List.mem_cons_self e m)
        rw [this] at he
        exact (Option.some_inj.mp he)
      have hrest : ((m.map Prod.snd).filter
          (fun w => decide (w.actor_id = some a))).length = 0 := by
        rw [List.length_eq_zero]
        rw [List.filter_eq_nil_iff]
        intro w hw
        rcases List.mem_map.mp hw with ⟨e2, he2, hw2⟩
        simp only [decide_eq_true_eq]
        intro hwa
        have hk2 := hkey e2 (List.mem_cons_of_mem e he2)
        rw [← hw2, hk2] at hwa
        have : e2.1 = a := Option.some_inj.mp hwa
        exact hnd2.1 (by rw [← hea] at this; exact this ▸ List.mem_map_of_mem Prod.fst he2)
      rw [if_pos (by simp [he])]
      rw [List.length_cons, hrest]
    · rw [if_neg (by simp [he])]
      exact ih (fun e2 he2 => hkey e2 (List.mem_cons_of_mem e he2)) hnd2.2

/-- After a disconnection the worker is absent from every collection and its
connection handle is spent: no later operation can bring it back. -/
def Gone (w : Worker) (s : WorkerPool) : Prop :=
  w ∉ s.pool_ ∧ (∀ e ∈ s.actor_pool_, e.2 ≠ w) ∧
    w ∉ s.registered_workers_ ∧ w.conn ∈ s.used_conns_

theorem gone_addStarted {w : Worker} {s : WorkerPool} (hg : Gone w s) (pid : Pid) :
    Gone w (AddStartedWorker s pid) := by
  unfold AddStartedWorker
  by_cases h : pid ∈ s.started_worker_pids_ <;> simp [h] <;> exact hg

theorem gone_step {w : Worker} {s t : WorkerPool} (hg : Gone w s) (h : Step s t) :
    Gone w t := by
  cases h with
  | start force pid =>
    unfold StartWorker
    by_cases h : force = false ∧ s.provisioning_ceiling_ ≤ NumStartedWorkers s
    · simpa [h] using hg
    · simpa [h] using gone_addStarted hg pid
  | addStarted pid => exact gone_addStarted hg pid
  | register w2 hc =>
    obtain ⟨h1, h2, h3, h4⟩ := hg
    refine ⟨h1, h2, ?_, List.mem_cons_of_mem _ h4⟩
    intro hmem
    rcases List.mem_append.mp hmem with hm | hm
    · exact h3 hm
    · simp at hm
      rw [hm] at h4
      exact hc h4
  | push w2 hreg hp ha =>
    obtain ⟨h1, h2, h3, h4⟩ := hg
    have hne : w2 ≠ w := fun he => h3 (he ▸ hreg)
    unfold PushWorker
    cases hw2 : w2.actor_id with
    | none =>
      refine ⟨?_, h2, h3, h4⟩
      intro hmem
      rcases List.mem_cons.mp hmem with hm | hm
      · exact hne hm.symm
      · exact h1 hm
    | some a =>
      refine ⟨h1, ?_, h3, h4⟩
      intro e he
      rcases List.mem_cons.mp he with hm | hm
      · rw [hm]
        exact hne
      · exact h2 e (mem_eraseActor hm).1
  | pop aid =>
    obtain ⟨h1, h2, h3, h4⟩ := hg
    cases aid with
    | none =>
      cases hp : s.pool_ with
      | nil =>
        rw [PopWorker_none_nil hp]
        exact ⟨h1, h2, h3, h4⟩
      | cons w2 rest =>
        rw [PopWorker_none_cons hp]
        refine ⟨?_, h2, h3, h4⟩
        intro hmem
        exact h1 (hp ▸ List.mem_cons_of_mem w2 hmem)
    | some a =>
      cases hl : lookupActor s.actor_pool_ a with
      | none =>
        rw [PopWorker_some_none hl]
        exact ⟨h1, h2, h3, h4⟩
      | some w2 =>
        rw [PopWorker_some_some hl]
        refine ⟨h1, ?_, h3, h4⟩
        intro e he
        exact h2 e (mem_eraseActor he).1
  | disconnect w2 hreg =>
    obtain ⟨h1, h2, h3, h4⟩ := hg
    unfold DisconnectWorker
    refine ⟨?_, ?_, ?_, h4⟩
    · intro hmem
      simp at hmem
      exact h1 hmem.1
    · intro e he
      simp at he
      exact h2 e he.1
    · intro hmem
      simp at hmem
      exact h3 hmem.1

theorem gone_reachFrom {w : Worker} {s t : WorkerPool} (hg : Gone w s)
    (h : ReachFrom s t) : Gone w t := by
  induction h with
  | refl => exact hg
  | tail t u h hstep ih => exact gone_step ih hstep

theorem pop_ne_of_gone {w : Worker} {t : WorkerPool} (hg : Gone w t)
    (aid : Option ActorID) : (PopWorker t aid).1 ≠ some w := by
  intro h
  cases aid with
  | none =>
    cases hp : t.pool_ with
    | nil => rw [PopWorker_none_nil hp] at h; cases h
    | cons w2 rest =>
      rw [PopWorker_none_cons hp] at h
      simp at h
      exact hg.1 (hp ▸ (h ▸ List.mem_cons_self w2 rest))
  | some a =>
    cases hl : lookupActor t.actor_pool_ a with
    | none => rw [PopWorker_some_none hl] at h; cases h
    | some w2 =>
      rw [PopWorker_some_some hl] at h
      simp at h
      exact hg.2.1 (a, w2) (lookupActor_eq_some hl) (by rw [h])

theorem length_filter_ne_of_mem {l : List Pid} {p : Pid} (hnd : l.Nodup)
    (hp : p ∈ l) : (l.filter (fun x => decide (x ≠ p))).length + 1 = l.length := by
  induction l with
  | nil => cases hp
  | cons a l ih =>
    have hnd2 := List.nodup_cons.mp hnd
    by_cases hap : a = p
    · have hpl : p ∉ l := by rw [← hap]; exact hnd2.1
      have hfl : l.filter (fun x => decide (x ≠ p)) = l := by
        rw [List.filter_eq_self]
        intro x hx
        simp only [decide_eq_true_eq]
        intro hxp
        exact hpl (hxp ▸ hx)
      rw [List.filter_cons_of_neg (by simp [hap]), hfl, List.length_cons]
    · have hpl : p ∈ l := by
        rcases List.mem_cons.mp hp with h1 | h2
        · exact absurd h1.symm hap
        · exact h2
      rw [List.filter_cons_of_pos (by simpa using hap), List.length_cons,
        List.length_cons, ← ih hnd2.2 hpl]

/-- Workers used in the concrete example states: a general-purpose worker and
a worker affine to actor 7. -/
def wGen : Worker := { pid := 11, conn := 1, actor_id := none }

def wAct : Worker := { pid := 12, conn := 2, actor_id := some 7 }

def ex0 : WorkerPool := initial 4

def ex1 : WorkerPool := RegisterWorker ex0 wGen

def ex2 : WorkerPool := RegisterWorker ex1 wAct

def ex3 : WorkerPool := PushWorker ex2 wGen

def ex4 : WorkerPool := PushWorker ex3 wAct

theorem ex2_reachable : Reachable ex2 :=
  Reachable.step ex1 ex2
    (Reachable.step ex0 ex1 (Reachable.init 4)
      (Step.register ex0 wGen (by decide)))
    (Step.register ex1 wAct (by decide))

theorem ex4_reachable : Reachable ex4 :=
  Reachable.step ex3 ex4
    (Reachable.step ex2 ex3 ex2_reachable
      (Step.push ex2 wGen (by decide) (by decide) (by decide)))
    (Step.push ex3 wAct (by decide) (by decide) (by decide))

/-- C1: Affinity exclusivity: in every reachable pool state, for every actor
identifier A there is at most one idle worker with affinity A in the Idle
Pool (both sub-collections counted), and `PopWorker` called with A returns
only a worker whose affinity tag equals A, never a worker with a different
or absent affinity tag. -/
theorem affinity_exclusivity (s : WorkerPool) (hs : Reachable s) :
    (∀ a : ActorID,
      ((idleWorkers s).filter (fun w => decide (w.actor_id = some a))).length ≤ 1) ∧
    (∀ (a : ActorID) (w : Worker),
      (PopWorker s (some a)).1 = some w → w.actor_id = some a) := by
  have hinv := reachable_inv hs
  constructor
  · intro a
    unfold idleWorkers
    rw [List.filter_append]
    have hpool : s.pool_.filter (fun w => decide (w.actor_id = some a)) = [] := by
      rw [List.filter_eq_nil_iff]
      intro w hw
      simp only [decide_eq_true_eq]
      rw [hinv.pool_generic w hw]
      simp
    rw [hpool, List.nil_append]
    exact actor_filter_le_one a s.actor_pool_ hinv.actor_key hinv.actor_keys_nodup
  · intro a w h
    cases hl : lookupActor s.actor_pool_ a with
    | none => rw [PopWorker_some_none hl] at h; cases h
    | some w2 =>
      rw [PopWorker_some_some hl] at h
      simp at h
      rw [← h]
      exact hinv.actor_key (a, w2) (lookupActor_eq_some hl)

theorem affinity_exclusivity_witness :
    (∀ a : ActorID,
      ((idleWorkers ex4).filter (fun w => decide (w.actor_id = some a))).length ≤ 1) ∧
    (∀ (a : ActorID) (w : Worker),
      (PopWorker ex4 (some a)).1 = some w → w.actor_id = some a) :=
  affinity_exclusivity ex4 ex4_reachable

/-- C2: Registry superset invariant: in every reachable pool state, every
worker present in either Idle Pool sub-collection (the generic idle queue or
the actor-affinity index) is also present in the Worker Registry. -/
theorem registry_superset (s : WorkerPool) (hs : Reachable s) :
    ∀ w ∈ idleWorkers s, w ∈ s.registered_workers_ := by
  intro w hw
  have hinv := reachable_inv hs
  unfold idleWorkers at hw
  rcases List.mem_append.mp hw with h | h
  · exact hinv.pool_sub w h
  · rcases List.mem_map.mp h with ⟨e, he, hew⟩
    rw [← hew]
    exact hinv.actor_sub e he

theorem registry_superset_witness :
    wGen ∈ idleWorkers ex4 ∧ wGen ∈ ex4.registered_workers_ :=
  ⟨by decide, registry_superset ex4 ex4_reachable wGen (by decide)⟩

/-- C3: Pop/Push round-trip: for every registered worker W not currently
idle, `PushWorker W` followed immediately by `PopWorker W.actorId` returns W,
and afterwards neither Idle Pool sub-collection contains W. -/
theorem push_pop_round_trip (s : WorkerPool) (w : Worker)
    (hreg : w ∈ s.registered_workers_) (hp : w ∉ s.pool_)
    (ha : ∀ e ∈ s.actor_pool_, e.2 ≠ w) :
    (PopWorker (PushWorker s w) w.actor_id).1 = some w ∧
    w ∉ (PopWorker (PushWorker s w) w.actor_id).2.pool_ ∧
    ∀ e ∈ (PopWorker (PushWorker s w) w.actor_id).2.actor_pool_, e.2 ≠ w := by
  cases hw : w.actor_id with
  | none =>
    have hpush : PushWorker s w = { s with pool_ := w :: s.pool_ } := by
      unfold PushWorker
      rw [hw]
    rw [hpush, PopWorker_none_cons rfl]
    exact ⟨rfl, hp, ha⟩
  | some a =>
    have hpush : PushWorker s w =
        { s with actor_pool_ := (a, w) :: eraseActor s.actor_pool_ a } := by
      unfold PushWorker
      rw [hw]
    have hlook : lookupActor
        ({ s with actor_pool_ := (a, w) :: eraseActor s.actor_pool_ a }
          : WorkerPool).actor_pool_ a = some w :=
      lookupActor_cons_self _ a w
    rw [hpush, PopWorker_some_some hlook]
    refine ⟨rfl, hp, ?_⟩
    intro e he
    have h2 := mem_eraseActor he
    rcases List.mem_cons.mp h2.1 with h3 | h3
    · exact absurd (by rw [h3]) h2.2
    · exact ha e (mem_eraseActor h3).1

theorem push_pop_round_trip_witness :
    (PopWorker (PushWorker ex2 wAct) wAct.actor_id).1 = some wAct ∧
    wAct ∉ (PopWorker (PushWorker ex2 wAct) wAct.actor_id).2.pool_ ∧
    ∀ e ∈ (PopWorker (PushWorker ex2 wAct) wAct.actor_id).2.actor_pool_,
      e.2 ≠ wAct :=
  push_pop_round_trip ex2 wAct (by decide) (by decide) (by decide)

/-- C4: Disconnect completeness: for every registered worker W in a reachable
state, after `DisconnectWorker W` the lookup `GetRegisteredWorker W.conn`
returns `none`, and no `PopWorker` call (with any actor identifier or with
none) in any state subsequently reachable by pool operations can return W. -/
theorem disconnect_completeness (s : WorkerPool) (w : Worker) (hs : Reachable s)
    (hreg : w ∈ s.registered_workers_) :
    GetRegisteredWorker (DisconnectWorker s w).2 w.conn = none ∧
    ∀ t, ReachFrom (DisconnectWorker s w).2 t →
      ∀ aid : Option ActorID, (PopWorker t aid).1 ≠ some w := by
  have hinv := reachable_inv hs
  have hgone : Gone w (DisconnectWorker s w).2 := by
    unfold DisconnectWorker
    refine ⟨?_, ?_, ?_, ?_⟩
    · intro hmem
      simp at hmem
    · intro e he
      simp at he
      exact he.2
    · intro hmem
      simp at hmem
    · exact hinv.conn_used w hreg
  constructor
  · unfold GetRegisteredWorker DisconnectWorker
    rw [List.find?_eq_none]
    intro x hx
    simp at hx
    simp only [decide_eq_true_eq]
    intro hxc
    exact hx.2 (List.inj_on_of_nodup_map hinv.conn_nodup hx.1 hreg hxc)
  · intro t ht aid
    exact pop_ne_of_gone (gone_reachFrom hgone ht) aid

theorem disconnect_completeness_witness :
    GetRegisteredWorker (DisconnectWorker ex2 wGen).2 wGen.conn = none ∧
    ∀ t, ReachFrom (DisconnectWorker ex2 wGen).2 t →
      ∀ aid : Option ActorID, (PopWorker t aid).1 ≠ some wGen :=
  disconnect_completeness ex2 wGen ex2_reachable (by decide)

/-- A sequence of non-forced `StartWorker` calls (no registrations occur in
between). -/
def startMany (s : WorkerPool) (pids : List Pid) : WorkerPool :=
  pids.foldl (fun t p => StartWorker t false p) s

theorem addStarted_ceiling (s : WorkerPool) (pid : Pid) :
    (AddStartedWorker s pid).provisioning_ceiling_ = s.provisioning_ceiling_ := by
  unfold AddStartedWorker
  split <;> rfl

theorem startWorker_ceiling (s : WorkerPool) (force : Bool) (pid : Pid) :
    (StartWorker s force pid).provisioning_ceiling_ = s.provisioning_ceiling_ := by
  unfold StartWorker
  split
  · rfl
  · exact addStarted_ceiling s pid

theorem numStarted_addStarted_le (s : WorkerPool) (pid : Pid) :
    NumStartedWorkers (AddStartedWorker s pid) ≤ NumStartedWorkers s + 1 := by
  unfold AddStartedWorker NumStartedWorkers
  split
  · omega
  · simp

theorem numStarted_start_false_le (s : WorkerPool) (pid : Pid) :
    NumStartedWorkers (StartWorker s false pid) ≤
      max (NumStartedWorkers s) s.provisioning_ceiling_ := by
  unfold StartWorker
  split
  · exact Nat.le_max_left _ _
  · next h =>
    have hlt : NumStartedWorkers s < s.provisioning_ceiling_ := by
      rcases Nat.lt_or_ge (NumStartedWorkers s) s.provisioning_ceiling_ with h2 | h2
      · exact h2
      · exact absurd ⟨rfl, h2⟩ h
    have hadd := numStarted_addStarted_le s pid
    omega

theorem numStarted_startMany_le (pids : List Pid) :
    ∀ s : WorkerPool, NumStartedWorkers (startMany s pids) ≤
      max (NumStartedWorkers s) s.provisioning_ceiling_ := by
  induction pids with
  | nil =>
    intro s
    exact Nat.le_max_left _ _
  | cons p pids ih =>
    intro s
    have h1 := numStarted_start_false_le s p
    have h2 := ih (StartWorker s false p)
    have h3 := startWorker_ceiling s false p
    unfold startMany at h2 ⊢
    rw [List.foldl_cons]
    rw [h3] at h2
    omega

/-- C5: Provisioning back-pressure: a run of non-forced `StartWorker` calls
with no interleaved registrations never drives `NumStartedWorkers` above the
configured ceiling (it stays below the larger of the ceiling and its starting
value, so in particular it never exceeds the ceiling when it starts at or
below it), while a forced `StartWorker` always records the freshly spawned
pid, growing the pending count by one regardless of the ceiling. -/
theorem provisioning_back_pressure (s : WorkerPool) (pids : List Pid) (pid : Pid)
    (hfresh : pid ∉ s.started_worker_pids_) :
    NumStartedWorkers (startMany s pids) ≤
      max (NumStartedWorkers s) s.provisioning_ceiling_ ∧
    (NumStartedWorkers s ≤ s.provisioning_ceiling_ →
      NumStartedWorkers (startMany s pids) ≤ s.provisioning_ceiling_) ∧
    NumStartedWorkers (StartWorker s true pid) = NumStartedWorkers s + 1 ∧
    pid ∈ (StartWorker s true pid).started_worker_pids_ := by
  have h1 := numStarted_startMany_le pids s
  refine ⟨h1, fun h => by omega, ?_, ?_⟩
  · unfold StartWorker AddStartedWorker NumStartedWorkers
    simp [hfresh]
  · unfold StartWorker AddStartedWorker
    simp [hfresh]

theorem provisioning_back_pressure_witness :
    NumStartedWorkers (startMany (initial 2) [21, 22, 23]) ≤
      max (NumStartedWorkers (initial 2)) (initial 2).provisioning_ceiling_ ∧
    (NumStartedWorkers (initial 2) ≤ (initial 2).provisioning_ceiling_ →
      NumStartedWorkers (startMany (initial 2) [21, 22, 23]) ≤
        (initial 2).provisioning_ceiling_) ∧
    NumStartedWorkers (StartWorker (initial 2) true 31) =
      NumStartedWorkers (initial 2) + 1 ∧
    31 ∈ (StartWorker (initial 2) true 31).started_worker_pids_ :=
  provisioning_back_pressure (initial 2) [21, 22, 23] 31 (by decide)

/-- C6: RegisterWorker postcondition: registering a worker whose connection
is not yet registered removes its process id from the Pending-Start Tracker
if present (decreasing `NumStartedWorkers` by one in that case and leaving it
unchanged otherwise), inserts the worker into the Worker Registry, and
afterwards `GetRegisteredWorker` on its connection resolves to it. -/
theorem register_worker_postcondition (s : WorkerPool) (w : Worker)
    (hnd : s.started_worker_pids_.Nodup)
    (hfresh : GetRegisteredWorker s w.conn = none) :
    GetRegisteredWorker (RegisterWorker s w) w.conn = some w ∧
    w ∈ (RegisterWorker s w).registered_workers_ ∧
    w.pid ∉ (RegisterWorker s w).started_worker_pids_ ∧
    (w.pid ∈ s.started_worker_pids_ →
      NumStartedWorkers (RegisterWorker s w) + 1 = NumStartedWorkers s) ∧
    (w.pid ∉ s.started_worker_pids_ →
      NumStartedWorkers (RegisterWorker s w) = NumStartedWorkers s) := by
  refine ⟨?_, ?_, ?_, ?_, ?_⟩
  · unfold GetRegisteredWorker at hfresh ⊢
    unfold RegisterWorker
    rw [find?_append_none _ hfresh]
    rw [List.find?_cons_of_pos _ (by simp)]
  · unfold RegisterWorker
    exact List.mem_append_right _ (List.mem_singleton.mpr rfl)
  · show w.pid ∉ s.started_worker_pids_.filter (fun p => decide (p ≠ w.pid))
    intro hmem
    simp at hmem
  · intro hmem
    exact length_filter_ne_of_mem hnd hmem
  · intro hmem
    show (s.started_worker_pids_.filter (fun p => decide (p ≠ w.pid))).length =
      s.started_worker_pids_.length
    have hfl : s.started_worker_pids_.filter (fun p => decide (p ≠ w.pid)) =
        s.started_worker_pids_ := by
      rw [List.filter_eq_self]
      intro x hx
      simp only [decide_eq_true_eq]
      intro hxp
      exact hmem (hxp ▸ hx)
    rw [hfl]

theorem register_worker_postcondition_witness :
    GetRegisteredWorker (RegisterWorker ex0 wGen) wGen.conn = some wGen ∧
    wGen ∈ (RegisterWorker ex0 wGen).registered_workers_ ∧
    wGen.pid ∉ (RegisterWorker ex0 wGen).started_worker_pids_ ∧
    (wGen.pid ∈ ex0.started_worker_pids_ →
      NumStartedWorkers (RegisterWorker ex0 wGen) + 1 = NumStartedWorkers ex0) ∧
    (wGen.pid ∉ ex0.started_worker_pids_ →
      NumStartedWorkers (RegisterWorker ex0 wGen) = NumStartedWorkers ex0) :=
  register_worker_postcondition ex0 wGen (by decide) (by decide)

/-- C7: Generic pop excludes affine workers: in every reachable state,
`PopWorker` with no actor identifier removes and returns the head of the
generic idle queue, returns `none` when that queue is empty, and never
returns a worker whose affinity tag is set, even when affine workers are
idle in the actor-affinity index. -/
theorem generic_pop_excludes_affine (s : WorkerPool) (hs : Reachable s) :
    (s.pool_ = [] → PopWorker s none = (none, s)) ∧
    (∀ (w : Worker) (rest : List Worker), s.pool_ = w :: rest →
      (PopWorker s none).1 = some w ∧ (PopWorker s none).2.pool_ = rest) ∧
    (∀ w : Worker, (PopWorker s none).1 = some w → w.actor_id = none) := by
  have hinv := reachable_inv hs
  refine ⟨?_, ?_, ?_⟩
  · exact fun h => PopWorker_none_nil h
  · intro w rest h
    rw [PopWorker_none_cons h]
    exact ⟨rfl, rfl⟩
  · intro w h
    cases hp : s.pool_ with
    | nil => rw [PopWorker_none_nil hp] at h; cases h
    | cons w2 rest =>
      rw [PopWorker_none_cons hp] at h
      simp at h
      rw [← h]
      exact hinv.pool_generic w2 (hp ▸ List.mem_cons_self w2 rest)

theorem generic_pop_excludes_affine_witness :
    (ex4.pool_ = [] → PopWorker ex4 none = (none, ex4)) ∧
    (∀ (w : Worker) (rest : List Worker), ex4.pool_ = w :: rest →
      (PopWorker ex4 none).1 = some w ∧ (PopWorker ex4 none).2.pool_ = rest) ∧
    (∀ w : Worker, (PopWorker ex4 none).1 = some w → w.actor_id = none) :=
  generic_pop_excludes_affine ex4 ex4_reachable

/-- No idle worker matches the request: an empty generic queue for a generic
request, or no actor-affinity entry for the requested actor. -/
def noMatchingIdle (s : WorkerPool) : Option ActorID → Prop
  | none => s.pool_ = []
  | some a => lookupActor s.actor_pool_ a = none

/-- C8: Absence is a result, not an error: `PopWorker` finding no matching
idle worker and `GetRegisteredWorker` finding no entry for the connection
both yield an explicit `none` result (and `PopWorker` leaves the state
untouched); both are total functions and `GetRegisteredWorker` is a pure
lookup that takes no state. -/
theorem absence_is_result (s : WorkerPool) (conn : Conn) (aid : Option ActorID)
    (hconn : ∀ x ∈ s.registered_workers_, x.conn ≠ conn)
    (hidle : noMatchingIdle s aid) :
    GetRegisteredWorker s conn = none ∧ PopWorker s aid = (none, s) := by
  constructor
  · unfold GetRegisteredWorker
    rw [List.find?_eq_none]
    intro x hx
    simp only [decide_eq_true_eq]
    exact hconn x hx
  · cases aid with
    | none => exact PopWorker_none_nil hidle
    | some a => exact PopWorker_some_none hidle

theorem absence_is_result_witness :
    GetRegisteredWorker (initial 0) 5 = none ∧
    PopWorker (initial 0) none = (none, initial 0) :=
  absence_is_result (initial 0) 5 none (by decide)
    (by show (initial 0).pool_ = []
        rfl)

/-- Worker used as a freshly connecting worker in witnesses. -/
def wNew : Worker := { pid := 13, conn := 3, actor_id := none }

/-- C9: Size semantics: `Size` counts exactly the registered workers that
have been assigned at least one unit of work: registering a fresh worker
leaves `Size` unchanged (a worker that has only registered does not
contribute), every counted worker is both registered and assigned, and a
worker returned by `PopWorker` is registered and assigned afterwards. -/
theorem size_semantics (s : WorkerPool) (hs : Reachable s) (w : Worker)
    (hfresh : w.conn ∉ s.used_conns_) :
    Size (RegisterWorker s w) = Size s ∧
    (∀ x ∈ s.registered_workers_.filter (fun y => decide (y ∈ s.assigned_)),
      x ∈ s.registered_workers_ ∧ x ∈ s.assigned_) ∧
    (∀ (aid : Option ActorID) (w2 : Worker), (PopWorker s aid).1 = some w2 →
      w2 ∈ (PopWorker s aid).2.registered_workers_ ∧
      w2 ∈ (PopWorker s aid).2.assigned_) := by
  have hinv := reachable_inv hs
  refine ⟨?_, ?_, ?_⟩
  · show ((s.registered_workers_ ++ [w]).filter
      (fun y => decide (y ∈ s.assigned_))).length = Size s
    rw [List.filter_append]
    have hw : [w].filter (fun y => decide (y ∈ s.assigned_)) = [] := by
      rw [List.filter_eq_nil_iff]
      intro x hx
      simp at hx
      simp only [decide_eq_true_eq]
      intro hxa
      exact hfresh (hx ▸ hinv.assigned_used x hxa)
    rw [hw, List.append_nil]
    rfl
  · intro x hx
    rw [List.mem_filter] at hx
    exact ⟨hx.1, by simpa using hx.2⟩
  · intro aid w2 h
    cases aid with
    | none =>
      cases hp : s.pool_ with
      | nil => rw [PopWorker_none_nil hp] at h; cases h
      | cons w3 rest =>
        rw [PopWorker_none_cons hp] at h ⊢
        simp at h
        subst h
        constructor
        · exact hinv.pool_sub w3 (hp ▸ List.mem_cons_self w3 rest)
        · exact List.mem_cons_self _ _
    | some a =>
      cases hl : lookupActor s.actor_pool_ a with
      | none => rw [PopWorker_some_none hl] at h; cases h
      | some w3 =>
        rw [PopWorker_some_some hl] at h ⊢
        simp at h
        subst h
        constructor
        · exact hinv.actor_sub (a, w3) (lookupActor_eq_some hl)
        · exact List.mem_cons_self _ _

theorem size_semantics_witness :
    Size (RegisterWorker ex4 wNew) = Size ex4 ∧
    (∀ x ∈ ex4.registered_workers_.filter (fun y => decide (y ∈ ex4.assigned_)),
      x ∈ ex4.registered_workers_ ∧ x ∈ ex4.assigned_) ∧
    (∀ (aid : Option ActorID) (w2 : Worker), (PopWorker ex4 aid).1 = some w2 →
      w2 ∈ (PopWorker ex4 aid).2.registered_workers_ ∧
      w2 ∈ (PopWorker ex4 aid).2.assigned_) :=
  size_semantics ex4 ex4_reachable wNew (by decide)

/-- C10: Pending-start tracking is set-like: `AddStartedWorker` with a pid
already present in the Pending-Start Tracker leaves `NumStartedWorkers`
unchanged; adding the same pid twice is the same as adding it once. -/
theorem add_started_worker_idempotent (s : WorkerPool) (pid : Pid) :
    AddStartedWorker (AddStartedWorker s pid) pid = AddStartedWorker s pid ∧
    (pid ∈ s.started_worker_pids_ →
      NumStartedWorkers (AddStartedWorker s pid) = NumStartedWorkers s) := by
  constructor
  · have hmem : pid ∈ (AddStartedWorker s pid).started_worker_pids_ := by
      unfold AddStartedWorker
      split
      · next h => exact h
      · exact List.mem_cons_self _ _
    conv_lhs => rw [AddStartedWorker]
    rw [if_pos hmem]
  · intro h
    have heq : AddStartedWorker s pid = s := by
      unfold AddStartedWorker
      rw [if_pos h]
    rw [heq]

theorem add_started_worker_idempotent_witness :
    AddStartedWorker (AddStartedWorker (initial 1) 5) 5 =
      AddStartedWorker (initial 1) 5 ∧
    (5 ∈ (initial 1).started_worker_pids_ →
      NumStartedWorkers (AddStartedWorker (initial 1) 5) =
        NumStartedWorkers (initial 1)) :=
  add_started_worker_idempotent (initial 1) 5

end RayWorkerPool
